import Mathlib

/-!
Shallow embedding of the telemetry metrics service (`api/index.py`).

The service holds a telemetry table loaded at startup and answers
`POST /api` requests carrying a list of region labels and a latency
threshold.  Reals are modelled by `ℚ`, the table by a `List` of records,
the JSON result object by an association list in insertion order, and the
two error-shaped responses by `Except.error`.
-/

namespace Telemetry

/-- One telemetry observation (one row of the loaded data frame):
a region label and numeric `latency` and `uptime` columns. -/
structure Record where
  region : String
  latency : ℚ
  uptime : ℚ
deriving DecidableEq, Repr

/-- The per-region statistics object built at `index.py` lines 91-96. -/
structure Stats where
  avg_latency : ℚ
  p95_latency : ℚ
  avg_uptime : ℚ
  breaches : ℚ
deriving DecidableEq, Repr

/-- `TELEMETRY_DF[TELEMETRY_DF['region'] == region]` (line 69): the rows of
the table whose region equals the requested label. -/
def regionSubset (table : List Record) (r : String) : List Record :=
  table.filter (fun rec => rec.region == r)

/-- `Series.mean`: arithmetic mean of a list of values (lines 78 and 85). -/
def mean (xs : List ℚ) : ℚ := xs.sum / (xs.length : ℚ)

/-- The interpolation rank used by `np.percentile(·, 95)` with its default
linear method: `0.95 * (n - 1)` in zero-based indexing. -/
def p95rank (n : ℕ) : ℚ := 95 * ((n : ℚ) - 1) / 100

/-- Linear interpolation of a sorted list `s` at a fractional zero-based
rank: with `i = ⌊rank⌋`, returns `s[i] + (rank - i) * (s[i+1] - s[i])`,
where a missing right neighbour falls back to `s[i]`. -/
def interpolate (s : List ℚ) (rank : ℚ) : ℚ :=
  let i : ℕ := (⌊rank⌋).toNat
  let a := s.getD i 0
  let b := s.getD (i + 1) a
  a + (rank - (i : ℚ)) * (b - a)

/-- `np.percentile(region_df['latency'], 95)` (line 82): sort the values
ascending and linearly interpolate at rank `0.95 * (n - 1)`. -/
def percentile95 (xs : List ℚ) : ℚ :=
  let s := List.insertionSort (fun a b => a ≤ b) xs
  interpolate s (p95rank s.length)

/-- Python's `round(x, 3)` on the scaled value: round half to even. -/
def roundHalfEven (x : ℚ) : ℤ :=
  let f := ⌊x⌋
  if x - f < 1 / 2 then f
  else if 1 / 2 < x - f then f + 1
  else if f % 2 = 0 then f else f + 1

/-- `round(·, 3)` (lines 92-94): round to 3 decimal places. -/
def round3 (q : ℚ) : ℚ := (roundHalfEven (1000 * q) : ℚ) / 1000

/-- `(region_df['latency'] > data.threshold_ms).sum()` (line 88): the number
of rows whose latency strictly exceeds the threshold. -/
def breachCount (s : List Record) (threshold : ℚ) : ℕ :=
  s.countP (fun rec => decide (threshold < rec.latency))

/-- The body of the per-region loop (lines 67-96): `none` when the filtered
frame is empty (the region is skipped), otherwise the four rounded metrics. -/
def regionStats (table : List Record) (r : String) (threshold : ℚ) :
    Option Stats :=
  let S := regionSubset table r
  if S.isEmpty then none
  else some {
    avg_latency := round3 (mean (S.map Record.latency))
    p95_latency := round3 (percentile95 (S.map Record.latency))
    avg_uptime := round3 (mean (S.map Record.uptime))
    breaches := (breachCount S threshold : ℚ) }

/-- `get_metrics` (lines 53-98): short-circuit to the error response when
the table is empty, otherwise fold the per-region loop into a result map
in request order. -/
def get_metrics (table : List Record) (regions : List String)
    (threshold : ℚ) : Except String (List (String × Stats)) :=
  if table.isEmpty then Except.error "Telemetry data could not be loaded."
  else Except.ok
    (regions.filterMap fun r => (regionStats table r threshold).map fun s => (r, s))

/-- The `POST /api` boundary: the pydantic model `RequestBody` (lines 11-16)
validates `threshold_ms` with `Field(..., gt=0)` before the handler runs, so
a non-positive threshold is rejected and `get_metrics` is never entered. -/
def post_api (table : List Record) (regions : List String)
    (threshold : ℚ) : Except String (List (String × Stats)) :=
  if 0 < threshold then get_metrics table regions threshold
  else Except.error "Input should be greater than 0"

/-- Modelled from the spec: the rank `0.95 × (n−1)` of the standard
percentile interpolation rule, written as the spec words it. -/
def specRank (n : ℕ) : ℚ := (95 / 100 : ℚ) * ((n : ℚ) - 1)

/-- Modelled from the spec: "using zero-based ordering of the sorted
values; interpolate between adjacent sorted values when the rank is
fractional" — an integral rank picks the sorted value at that index,
a fractional rank interpolates between the two adjacent sorted values. -/
def specInterp (s : List ℚ) (rank : ℚ) : ℚ :=
  if rank = ((⌊rank⌋).toNat : ℚ) then s.getD (⌊rank⌋).toNat 0
  else s.getD (⌊rank⌋).toNat 0
    + (rank - ((⌊rank⌋).toNat : ℚ))
      * (s.getD ((⌊rank⌋).toNat + 1) 0 - s.getD (⌊rank⌋).toNat 0)

/-- Modelled from the spec (refinement reference for the percentile claim):
"the 95th percentile of the `latency` values in `S`, using linear
interpolation between the two nearest ranks (standard percentile
interpolation: rank = 0.95 × (n−1))". -/
def p95_spec (xs : List ℚ) : ℚ :=
  specInterp (List.insertionSort (fun a b => a ≤ b) xs)
    (specRank (List.insertionSort (fun a b => a ≤ b) xs).length)

/-- The concrete three-row table of the spec's worked scenario. -/
def demoTable : List Record :=
  [⟨"amer", 100, (999 : ℚ) / 10⟩, ⟨"amer", 300, (995 : ℚ) / 10⟩,
   ⟨"emea", 50, 100⟩]

/-- A one-row table whose single latency has more than three decimal
places; used to separate the rounded output from the raw statistics. -/
def tinyTable : List Record := [⟨"r", (1 : ℚ) / 2500, 100⟩]

lemma regionStats_eq_some_iff {table : List Record} {r : String} {t : ℚ}
    {s : Stats} :
    regionStats table r t = some s ↔
      regionSubset table r ≠ [] ∧
      s = ⟨round3 (mean ((regionSubset table r).map Record.latency)),
           round3 (percentile95 ((regionSubset table r).map Record.latency)),
           round3 (mean ((regionSubset table r).map Record.uptime)),
           (breachCount (regionSubset table r) t : ℚ)⟩ := by
  unfold regionStats
  by_cases hS : (regionSubset table r).isEmpty
  · simp [hS, List.isEmpty_iff.mp hS]
  · have : regionSubset table r ≠ [] := by
      simpa [List.isEmpty_iff] using hS
    simp [hS, this, eq_comm]

lemma le_mean {xs : List ℚ} {lo : ℚ} (hne : xs ≠ [])
    (h : ∀ x ∈ xs, lo ≤ x) : lo ≤ mean xs := by
  have hn : 0 < (xs.length : ℚ) := by
    have := List.length_pos.mpr hne
    exact_mod_cast this
  have hsum : (xs.length : ℚ) * lo ≤ xs.sum := by
    have := List.card_nsmul_le_sum xs lo h
    simpa [nsmul_eq_mul] using this
  rw [mean, le_div_iff₀ hn]
  linarith [hsum]

lemma mean_le {xs : List ℚ} {hi : ℚ} (hne : xs ≠ [])
    (h : ∀ x ∈ xs, x ≤ hi) : mean xs ≤ hi := by
  have hn : 0 < (xs.length : ℚ) := by
    have := List.length_pos.mpr hne
    exact_mod_cast this
  have hsum : xs.sum ≤ (xs.length : ℚ) * hi := by
    have := List.sum_le_card_nsmul xs hi h
    simpa [nsmul_eq_mul] using this
  rw [mean, div_le_iff₀ hn]
  linarith [hsum]

lemma abs_roundHalfEven_sub (x : ℚ) : |(roundHalfEven x : ℚ) - x| ≤ 1 / 2 := by
  have hfl : (⌊x⌋ : ℚ) ≤ x := Int.floor_le x
  have hfu : x < (⌊x⌋ : ℚ) + 1 := Int.lt_floor_add_one x
  unfold roundHalfEven
  by_cases h1 : x - (⌊x⌋ : ℚ) < 1 / 2
  · rw [if_pos h1, abs_le]
    constructor <;> linarith
  · rw [if_neg h1]
    by_cases h2 : (1 : ℚ) / 2 < x - (⌊x⌋ : ℚ)
    · rw [if_pos h2, abs_le]
      push_cast
      constructor <;> linarith
    · rw [if_neg h2]
      have hx : x - (⌊x⌋ : ℚ) = 1 / 2 := le_antisymm (not_lt.mp h2) (not_lt.mp h1)
      by_cases h3 : ⌊x⌋ % 2 = 0
      · rw [if_pos h3, abs_le]
        constructor <;> linarith
      · rw [if_neg h3, abs_le]
        push_cast
        constructor <;> linarith

lemma abs_round3_sub (q : ℚ) : |round3 q - q| ≤ 1 / 2000 := by
  have h := abs_roundHalfEven_sub (1000 * q)
  rw [round3]
  have : (roundHalfEven (1000 * q) : ℚ) / 1000 - q
      = ((roundHalfEven (1000 * q) : ℚ) - 1000 * q) / 1000 := by ring
  rw [this, abs_div]
  rw [abs_of_pos (by norm_num : (0:ℚ) < 1000)]
  linarith [h]

lemma round3_ge (q : ℚ) : q - 1 / 2000 ≤ round3 q := by
  have := abs_round3_sub q
  rw [abs_le] at this
  linarith [this.1]

lemma round3_le (q : ℚ) : round3 q ≤ q + 1 / 2000 := by
  have := abs_round3_sub q
  rw [abs_le] at this
  linarith [this.2]

lemma p95rank_nonneg {n : ℕ} (hn : 1 ≤ n) : 0 ≤ p95rank n := by
  have h1 : (1 : ℚ) ≤ (n : ℚ) := by exact_mod_cast hn
  unfold p95rank
  apply div_nonneg _ (by norm_num)
  nlinarith

lemma p95rank_le {n : ℕ} (hn : 1 ≤ n) : p95rank n ≤ (n : ℚ) - 1 := by
  have h1 : (1 : ℚ) ≤ (n : ℚ) := by exact_mod_cast hn
  unfold p95rank
  rw [div_le_iff₀ (by norm_num : (0:ℚ) < 100)]
  nlinarith

lemma p95rank_index_lt {n : ℕ} (hn : 1 ≤ n) : (⌊p95rank n⌋).toNat < n := by
  have hle : p95rank n ≤ (((n : ℤ) - 1 : ℤ) : ℚ) := by
    have := p95rank_le hn
    push_cast
    linarith
  have hfl : ⌊p95rank n⌋ ≤ (n : ℤ) - 1 := by
    have := Int.floor_le_floor hle
    rwa [Int.floor_intCast] at this
  have : (⌊p95rank n⌋).toNat ≤ n - 1 := by omega
  omega

lemma interpolate_eq_specInterp (s : List ℚ) (hn : 1 ≤ s.length) :
    interpolate s (p95rank s.length) = specInterp s (specRank s.length) := by
  have hranks : specRank s.length = p95rank s.length := by
    unfold specRank p95rank
    ring
  rw [hranks]
  simp only [interpolate, specInterp]
  set rank := p95rank s.length with hr
  set k : ℕ := (⌊rank⌋).toNat with hk
  have h0 : 0 ≤ rank := p95rank_nonneg hn
  have hfl : 0 ≤ ⌊rank⌋ := Int.floor_nonneg.mpr h0
  have hkq : ((k : ℕ) : ℚ) = ((⌊rank⌋ : ℤ) : ℚ) := by
    rw [hk]
    exact_mod_cast congrArg (fun z : ℤ => (z : ℚ)) (Int.toNat_of_nonneg hfl)
  by_cases heq : rank = (k : ℚ)
  · rw [if_pos heq]
    rw [← heq]
    ring
  · rw [if_neg heq]
    have hkle : ((k : ℕ) : ℚ) ≤ rank := by
      rw [hkq]
      exact Int.floor_le rank
    have hklt : ((k : ℕ) : ℚ) < rank := lt_of_le_of_ne hkle (fun h => heq h.symm)
    have hrle : rank ≤ (s.length : ℚ) - 1 := p95rank_le hn
    have hk1 : k + 1 < s.length := by
      have : ((k : ℕ) : ℚ) < (s.length : ℚ) - 1 := lt_of_lt_of_le hklt hrle
      have hkn : (k : ℤ) < (s.length : ℤ) - 1 := by exact_mod_cast this
      omega
    have hbd : s.getD (k + 1) (s.getD k 0) = s.getD (k + 1) 0 := by
      rw [List.getD_eq_getElem _ _ hk1, List.getD_eq_getElem _ _ hk1]
    rw [hbd]

lemma percentile95_eq_p95_spec {xs : List ℚ} (hne : xs ≠ []) :
    percentile95 xs = p95_spec xs := by
  simp only [percentile95, p95_spec]
  apply interpolate_eq_specInterp
  rw [List.length_insertionSort]
  exact List.length_pos.mpr hne

lemma interpolate_mem_bounds {s : List ℚ} {rank lo hi : ℚ}
    (hmem : ∀ x ∈ s, lo ≤ x ∧ x ≤ hi)
    (h0 : 0 ≤ rank) (hlt : (⌊rank⌋).toNat < s.length) :
    lo ≤ interpolate s rank ∧ interpolate s rank ≤ hi := by
  simp only [interpolate]
  set k : ℕ := (⌊rank⌋).toNat with hk
  have hfl : 0 ≤ ⌊rank⌋ := Int.floor_nonneg.mpr h0
  have hkq : ((k : ℕ) : ℚ) = ((⌊rank⌋ : ℤ) : ℚ) := by
    rw [hk]
    exact_mod_cast congrArg (fun z : ℤ => (z : ℚ)) (Int.toNat_of_nonneg hfl)
  have hfrac0 : 0 ≤ rank - (k : ℚ) := by
    rw [hkq]
    have := Int.floor_le rank
    linarith
  have hfrac1 : rank - (k : ℚ) < 1 := by
    rw [hkq]
    have := Int.lt_floor_add_one rank
    linarith
  have ha : s.getD k 0 ∈ s := by
    rw [List.getD_eq_getElem _ _ hlt]
    exact List.getElem_mem hlt
  obtain ⟨halo, hahi⟩ := hmem _ ha
  by_cases hb : k + 1 < s.length
  · have hbm : s.getD (k + 1) (s.getD k 0) ∈ s := by
      rw [List.getD_eq_getElem _ _ hb]
      exact List.getElem_mem hb
    obtain ⟨hblo, hbhi⟩ := hmem _ hbm
    constructor <;> nlinarith [mul_nonneg hfrac0 (sub_nonneg.mpr hblo),
      mul_nonneg hfrac0 (sub_nonneg.mpr (le_of_lt hfrac1)),
      mul_nonneg hfrac0 (sub_nonneg.mpr hbhi)]
  · have hbd : s.getD (k + 1) (s.getD k 0) = s.getD k 0 :=
      List.getD_eq_default _ _ (not_lt.mp hb)
    rw [hbd]
    constructor <;> nlinarith

lemma percentile95_mem_bounds {xs : List ℚ} {lo hi : ℚ} (hne : xs ≠ [])
    (h : ∀ x ∈ xs, lo ≤ x ∧ x ≤ hi) :
    lo ≤ percentile95 xs ∧ percentile95 xs ≤ hi := by
  simp only [percentile95]
  have hperm : (List.insertionSort (fun a b => a ≤ b) xs).Perm xs :=
    List.perm_insertionSort _ xs
  have hmem : ∀ x ∈ List.insertionSort (fun a b => a ≤ b) xs, lo ≤ x ∧ x ≤ hi :=
    fun x hx => h x (hperm.mem_iff.mp hx)
  have hn : 1 ≤ (List.insertionSort (fun a b => a ≤ b) xs).length := by
    rw [List.length_insertionSort]
    exact List.length_pos.mpr hne
  exact interpolate_mem_bounds hmem (p95rank_nonneg hn) (p95rank_index_lt hn)

lemma mean_mem_bounds {xs : List ℚ} {lo hi : ℚ} (hne : xs ≠ [])
    (h : ∀ x ∈ xs, lo ≤ x ∧ x ≤ hi) :
    lo ≤ mean xs ∧ mean xs ≤ hi :=
  ⟨le_mean hne (fun x hx => (h x hx).1), mean_le hne (fun x hx => (h x hx).2)⟩

lemma min?_le_of_mem {l : List ℚ} {lo x : ℚ} (h : l.min? = some lo)
    (hx : x ∈ l) : lo ≤ x := by
  haveI : Std.Antisymm (fun x1 x2 : ℚ => x1 ≤ x2) :=
    ⟨fun hab hba => le_antisymm hab hba⟩
  have := (List.min?_eq_some_iff (fun a => le_refl a)
    (fun a b => min_choice a b) (fun a b c => le_min_iff)).mp h
  exact this.2 x hx

lemma le_max?_of_mem {l : List ℚ} {hi x : ℚ} (h : l.max? = some hi)
    (hx : x ∈ l) : x ≤ hi := by
  haveI : Std.Antisymm (fun x1 x2 : ℚ => x1 ≤ x2) :=
    ⟨fun hab hba => le_antisymm hab hba⟩
  have := (List.max?_eq_some_iff (fun a => le_refl a)
    (fun a b => max_choice a b) (fun a b c => max_le_iff)).mp h
  exact this.2 x hx

/-- C1: if the telemetry table failed to load (is empty), a `POST /api`
request does not run the per-region computation and the response is the
error object `{"error": "Telemetry data could not be loaded."}` instead of
a per-region map. -/
theorem empty_table_returns_load_error (regions : List String) (t : ℚ)
    (ht : 0 < t) :
    post_api [] regions t
      = Except.error "Telemetry data could not be loaded." := by
  simp [post_api, get_metrics, ht]

theorem empty_table_returns_load_error_witness :
    post_api [] ["amer"] 150
      = Except.error "Telemetry data could not be loaded." :=
  empty_table_returns_load_error ["amer"] 150 (by norm_num)

/-- C2: for every requested region with a non-empty matching subset, the
p95 latency computed at line 82 equals the 95th percentile of the subset's
latencies by linear interpolation over the sorted values at zero-based rank
`0.95 × (n−1)`; the reported field is that percentile rounded to 3 decimal
places. -/
theorem p95_is_linear_interpolation (table : List Record) (r : String)
    (t : ℚ) (s : Stats) (h : regionStats table r t = some s) :
    percentile95 ((regionSubset table r).map Record.latency)
      = p95_spec ((regionSubset table r).map Record.latency) ∧
    s.p95_latency
      = round3 (p95_spec ((regionSubset table r).map Record.latency)) := by
  obtain ⟨hne, hs⟩ := regionStats_eq_some_iff.mp h
  have hlats : (regionSubset table r).map Record.latency ≠ [] := by
    simpa [ne_eq, List.map_eq_nil_iff] using hne
  have heq := percentile95_eq_p95_spec hlats
  refine ⟨heq, ?_⟩
  rw [hs]
  exact congrArg round3 heq

theorem p95_is_linear_interpolation_witness :
    percentile95 ((regionSubset demoTable "amer").map Record.latency)
      = p95_spec ((regionSubset demoTable "amer").map Record.latency) ∧
    (⟨200, 290, (997 : ℚ) / 10, 1⟩ : Stats).p95_latency
      = round3 (p95_spec ((regionSubset demoTable "amer").map Record.latency)) :=
  p95_is_linear_interpolation demoTable "amer" 150 ⟨200, 290, (997 : ℚ) / 10, 1⟩
    (by with_unfolding_all rfl)

/-- C3: for every region with a non-empty matching subset and every valid
threshold, the reported breaches value equals the number of subset rows
whose latency is strictly greater than the threshold; a row whose latency
exactly equals the threshold satisfies the counted predicate in no case. -/
theorem breaches_counts_strict_exceedances (table : List Record) (r : String)
    (t : ℚ) (s : Stats) (h : regionStats table r t = some s) :
    s.breaches
      = (((regionSubset table r).filter
          (fun rec => decide (rec.latency > t))).length : ℚ) ∧
    ∀ rec : Record, rec.latency = t → decide (rec.latency > t) = false := by
  obtain ⟨hne, hs⟩ := regionStats_eq_some_iff.mp h
  constructor
  · rw [hs]
    show (breachCount (regionSubset table r) t : ℚ) = _
    rw [breachCount, List.countP_eq_length_filter]
  · intro rec hrec
    simp [hrec]

theorem breaches_counts_strict_exceedances_witness :
    (⟨200, 290, (997 : ℚ) / 10, 1⟩ : Stats).breaches
      = (((regionSubset demoTable "amer").filter
          (fun rec => decide (rec.latency > (150 : ℚ)))).length : ℚ) ∧
    decide ((⟨"x", 150, 0⟩ : Record).latency > (150 : ℚ)) = false := by
  have h := breaches_counts_strict_exceedances demoTable "amer" 150
    ⟨200, 290, (997 : ℚ) / 10, 1⟩ (by with_unfolding_all rfl)
  exact ⟨h.1, h.2 ⟨"x", 150, 0⟩ rfl⟩

/-- C4: on the spec's concrete three-row table with
`regions = ["amer", "emea", "apac"]` and `threshold_ms = 150`, the result
has exactly the keys `"amer"` (avg 200, p95 290, uptime 99.7, breaches 1)
and `"emea"` (avg 50, p95 50, uptime 100, breaches 0), and `"apac"` is
absent. -/
theorem concrete_scenario_result :
    post_api demoTable ["amer", "emea", "apac"] 150
      = Except.ok [("amer", ⟨200, 290, (997 : ℚ) / 10, 1⟩),
                   ("emea", ⟨50, 50, 100, 0⟩)] ∧
    "apac" ∉ ([("amer", (⟨200, 290, (997 : ℚ) / 10, 1⟩ : Stats)),
               ("emea", ⟨50, 50, 100, 0⟩)].map Prod.fst) := by
  refine ⟨by with_unfolding_all rfl, by simp⟩

/-- C5: every request whose `threshold_ms` is ≤ 0 is rejected by the
boundary validation and never reaches the metrics computation. -/
theorem nonpositive_threshold_rejected (table : List Record)
    (regions : List String) (t : ℚ) (ht : t ≤ 0) :
    post_api table regions t
      = Except.error "Input should be greater than 0" := by
  rw [post_api, if_neg (not_lt.mpr ht)]

theorem nonpositive_threshold_rejected_witness :
    post_api demoTable ["amer"] 0
      = Except.error "Input should be greater than 0" ∧
    post_api demoTable ["amer"] (-5)
      = Except.error "Input should be greater than 0" :=
  ⟨nonpositive_threshold_rejected demoTable ["amer"] 0 le_rfl,
   nonpositive_threshold_rejected demoTable ["amer"] (-5) (by norm_num)⟩

/-- C6: a requested region label whose matching subset is empty produces
no entry in the result and no error: the response is the ordinary
per-region map and the label is absent from its keys. -/
theorem empty_region_silently_omitted (table : List Record)
    (regions : List String) (t : ℚ) (r : String) (ht : 0 < t)
    (htab : table ≠ []) (hr : regionSubset table r = []) :
    post_api table regions t
      = Except.ok (regions.filterMap
          fun q => (regionStats table q t).map fun s => (q, s)) ∧
    r ∉ (regions.filterMap
          fun q => (regionStats table q t).map fun s => (q, s)).map Prod.fst := by
  have hempty : table.isEmpty = false := by
    rw [List.isEmpty_eq_false_iff_exists_mem]
    rcases table with - | ⟨a, l⟩
    · exact absurd rfl htab
    · exact ⟨a, List.mem_cons_self a l⟩
  constructor
  · rw [post_api, if_pos ht, get_metrics, hempty]
    rfl
  · intro hmem
    rw [List.mem_map] at hmem
    obtain ⟨p, hp, hp1⟩ := hmem
    rw [List.mem_filterMap] at hp
    obtain ⟨q, hq, hqp⟩ := hp
    rw [Option.map_eq_some'] at hqp
    obtain ⟨s, hsq, rfl⟩ := hqp
    subst hp1
    have := (regionStats_eq_some_iff.mp hsq).1
    exact this hr

theorem empty_region_silently_omitted_witness :
    post_api demoTable ["amer", "apac"] 150
      = Except.ok (["amer", "apac"].filterMap
          fun q => (regionStats demoTable q 150).map fun s => (q, s)) ∧
    "apac" ∉ (["amer", "apac"].filterMap
          fun q => (regionStats demoTable q 150).map fun s => (q, s)).map Prod.fst :=
  empty_region_silently_omitted demoTable ["amer", "apac"] 150 "apac"
    (by norm_num) (by simp [demoTable]) (by with_unfolding_all rfl)

/-- C7: for a fixed table and region, the reported breaches count is
monotonically non-increasing in the threshold: valid thresholds
`t1 ≤ t2` give `breaches(t2) ≤ breaches(t1)`. -/
theorem breaches_antitone_in_threshold (table : List Record) (r : String)
    (t1 t2 : ℚ) (s1 s2 : Stats) (_h1 : 0 < t1) (h12 : t1 ≤ t2)
    (hs1 : regionStats table r t1 = some s1)
    (hs2 : regionStats table r t2 = some s2) :
    s2.breaches ≤ s1.breaches := by
  obtain ⟨-, hv1⟩ := regionStats_eq_some_iff.mp hs1
  obtain ⟨-, hv2⟩ := regionStats_eq_some_iff.mp hs2
  have hmono : breachCount (regionSubset table r) t2
      ≤ breachCount (regionSubset table r) t1 := by
    apply List.countP_mono_left
    intro rec _ hdec
    rw [decide_eq_true_iff] at hdec ⊢
    exact lt_of_le_of_lt h12 hdec
  calc s2.breaches = (breachCount (regionSubset table r) t2 : ℚ) := by rw [hv2]
    _ ≤ (breachCount (regionSubset table r) t1 : ℚ) := by exact_mod_cast hmono
    _ = s1.breaches := by rw [hv1]

theorem breaches_antitone_in_threshold_witness :
    (⟨200, 290, (997 : ℚ) / 10, 0⟩ : Stats).breaches
      ≤ (⟨200, 290, (997 : ℚ) / 10, 1⟩ : Stats).breaches :=
  breaches_antitone_in_threshold demoTable "amer" 150 300
    ⟨200, 290, (997 : ℚ) / 10, 1⟩ ⟨200, 290, (997 : ℚ) / 10, 0⟩
    (by norm_num) (by norm_num)
    (by with_unfolding_all rfl) (by with_unfolding_all rfl)

/-- C8 (counterexample): on a one-row table with latency `1/2500 = 0.0004`
the reported (3-decimal-rounded) avg and p95 latencies are `0`, which lies
outside the interval `[min, max] = [1/2500, 1/2500]` of the matching
latencies — the claim as stated fails on the code. -/
theorem reported_stats_can_leave_min_max_interval :
    (regionStats tinyTable "r" 1).map Stats.avg_latency = some 0 ∧
    (regionStats tinyTable "r" 1).map Stats.p95_latency = some 0 ∧
    ((regionSubset tinyTable "r").map Record.latency).min?
      = some (1 / 2500) ∧
    ((regionSubset tinyTable "r").map Record.latency).max?
      = some (1 / 2500) ∧
    ¬ ((1 / 2500 : ℚ) ≤ 0) :=
  ⟨by with_unfolding_all rfl, by with_unfolding_all rfl,
   by with_unfolding_all rfl, by with_unfolding_all rfl, by norm_num⟩

/-- C8 (amended): the pre-rounding avg and p95 latencies lie within
`[min, max]` of the matching latencies, and the reported (3-decimal-
rounded) fields lie within `[min − 1/2000, max + 1/2000]`. -/
theorem stats_within_min_max_up_to_rounding (table : List Record)
    (r : String) (t : ℚ) (s : Stats) (lo hi : ℚ)
    (h : regionStats table r t = some s)
    (hlo : ((regionSubset table r).map Record.latency).min? = some lo)
    (hhi : ((regionSubset table r).map Record.latency).max? = some hi) :
    (lo ≤ mean ((regionSubset table r).map Record.latency) ∧
     mean ((regionSubset table r).map Record.latency) ≤ hi) ∧
    (lo ≤ percentile95 ((regionSubset table r).map Record.latency) ∧
     percentile95 ((regionSubset table r).map Record.latency) ≤ hi) ∧
    (lo - 1 / 2000 ≤ s.avg_latency ∧ s.avg_latency ≤ hi + 1 / 2000) ∧
    (lo - 1 / 2000 ≤ s.p95_latency ∧ s.p95_latency ≤ hi + 1 / 2000) := by
  obtain ⟨hne, hs⟩ := regionStats_eq_some_iff.mp h
  have hlne : (regionSubset table r).map Record.latency ≠ [] := by
    simpa [ne_eq, List.map_eq_nil_iff] using hne
  have hbnd : ∀ x ∈ (regionSubset table r).map Record.latency,
      lo ≤ x ∧ x ≤ hi :=
    fun x hx => ⟨min?_le_of_mem hlo hx, le_max?_of_mem hhi hx⟩
  have hmean := mean_mem_bounds hlne hbnd
  have hp95 := percentile95_mem_bounds hlne hbnd
  have hsa : s.avg_latency
      = round3 (mean ((regionSubset table r).map Record.latency)) := by
    rw [hs]
  have hsp : s.p95_latency
      = round3 (percentile95 ((regionSubset table r).map Record.latency)) := by
    rw [hs]
  refine ⟨hmean, hp95, ?_, ?_⟩
  · rw [hsa]
    have h1 := round3_ge (mean ((regionSubset table r).map Record.latency))
    have h2 := round3_le (mean ((regionSubset table r).map Record.latency))
    exact ⟨by linarith [hmean.1], by linarith [hmean.2]⟩
  · rw [hsp]
    have h1 := round3_ge (percentile95 ((regionSubset table r).map Record.latency))
    have h2 := round3_le (percentile95 ((regionSubset table r).map Record.latency))
    exact ⟨by linarith [hp95.1], by linarith [hp95.2]⟩

theorem stats_within_min_max_up_to_rounding_witness :
    ((100 : ℚ) ≤ mean ((regionSubset demoTable "amer").map Record.latency) ∧
     mean ((regionSubset demoTable "amer").map Record.latency) ≤ 300) ∧
    ((100 : ℚ) ≤ percentile95 ((regionSubset demoTable "amer").map Record.latency) ∧
     percentile95 ((regionSubset demoTable "amer").map Record.latency) ≤ 300) ∧
    ((100 : ℚ) - 1 / 2000 ≤ (⟨200, 290, (997 : ℚ) / 10, 1⟩ : Stats).avg_latency ∧
     (⟨200, 290, (997 : ℚ) / 10, 1⟩ : Stats).avg_latency ≤ 300 + 1 / 2000) ∧
    ((100 : ℚ) - 1 / 2000 ≤ (⟨200, 290, (997 : ℚ) / 10, 1⟩ : Stats).p95_latency ∧
     (⟨200, 290, (997 : ℚ) / 10, 1⟩ : Stats).p95_latency ≤ 300 + 1 / 2000) :=
  stats_within_min_max_up_to_rounding demoTable "amer" 150
    ⟨200, 290, (997 : ℚ) / 10, 1⟩ 100 300
    (by with_unfolding_all rfl) (by with_unfolding_all rfl)
    (by with_unfolding_all rfl)

/-- C9: the computation is deterministic — two invocations with the same
table, regions list and threshold return identical results (the embedded
handler is a pure function of its three inputs). -/
theorem get_metrics_deterministic (table : List Record)
    (regions : List String) (t : ℚ)
    (r1 r2 : Except String (List (String × Stats)))
    (h1 : post_api table regions t = r1)
    (h2 : post_api table regions t = r2) : r1 = r2 :=
  h1.symm.trans h2

theorem get_metrics_deterministic_witness :
    (Except.ok [("amer", (⟨200, 290, (997 : ℚ) / 10, 1⟩ : Stats)),
                ("emea", ⟨50, 50, 100, 0⟩)]
      : Except String (List (String × Stats)))
      = Except.ok [("amer", ⟨200, 290, (997 : ℚ) / 10, 1⟩),
                   ("emea", ⟨50, 50, 100, 0⟩)] :=
  get_metrics_deterministic demoTable ["amer", "emea", "apac"] 150 _ _
    (by with_unfolding_all rfl) (by with_unfolding_all rfl)

/-- C10: every entry of a successful response has a key that was requested
and carries exactly the statistics record the per-region computation
produces for that key (the `Stats` type has exactly the four fields
`avg_latency`, `p95_latency`, `avg_uptime`, `breaches`). -/
theorem result_keys_are_requested_regions (table : List Record)
    (regions : List String) (t : ℚ) (res : List (String × Stats))
    (p : String × Stats) (h : post_api table regions t = Except.ok res)
    (hp : p ∈ res) :
    p.1 ∈ regions ∧ regionStats table p.1 t = some p.2 := by
  rw [post_api] at h
  by_cases ht : 0 < t
  · rw [if_pos ht, get_metrics] at h
    by_cases htab : table.isEmpty
    · rw [if_pos htab] at h
      exact absurd h (by simp)
    · rw [if_neg htab] at h
      rw [Except.ok.injEq] at h
      rw [← h] at hp
      rw [List.mem_filterMap] at hp
      obtain ⟨q, hq, hqp⟩ := hp
      rw [Option.map_eq_some'] at hqp
      obtain ⟨s, hsq, rfl⟩ := hqp
      exact ⟨hq, hsq⟩
  · rw [if_neg ht] at h
    exact absurd h (by simp)

theorem result_keys_are_requested_regions_witness :
    "amer" ∈ ["amer", "emea", "apac"] ∧
    regionStats demoTable "amer" 150
      = some ⟨200, 290, (997 : ℚ) / 10, 1⟩ :=
  result_keys_are_requested_regions demoTable ["amer", "emea", "apac"] 150
    [("amer", ⟨200, 290, (997 : ℚ) / 10, 1⟩), ("emea", ⟨50, 50, 100, 0⟩)]
    ("amer", ⟨200, 290, (997 : ℚ) / 10, 1⟩)
    (by with_unfolding_all rfl) (by simp)

end Telemetry
